import Mathlib

/-!
Shallow embedding of `src/files.js`: the glob-backed batch file utility
class `Files`, together with a model of the platform filesystem
primitives it delegates to (`fs` / `fs-extra` / `path`).

Strings model JS strings (the paths handled are ordinary ASCII paths,
where JS UTF-16 indices and character indices agree).  The filesystem is
an association list from path to entry, first match wins.  The external
recursive copy / move / remove engine is a black box in the design, so
the batch operations additionally return the ordered trace of engine
calls they perform.  Encoding parameters (the `utf-8` defaults in the
source) carry no meaning in the model and are omitted.
-/

set_option autoImplicit false

namespace FilesJS

/-! ### Model of Node `path.posix` -/

/-- Segments of a character list split at `'/'`, keeping empty segments
(splitting a JS string on the separator). -/
def splitSlash : List Char → List (List Char)
  | [] => [[]]
  | c :: rest =>
    if c = '/' then [] :: splitSlash rest
    else
      match splitSlash rest with
      | [] => [[c]]
      | seg :: segs => (c :: seg) :: segs

/-- One step of Node `normalizeString`: fold the next segment into the
(reversed) stack of kept segments.  Empty and `"."` segments are
dropped; `".."` pops a normal segment, and is kept only when the path
is relative (`allowAboveRoot`). -/
def normStep (allowAboveRoot : Bool) (stack : List (List Char)) (seg : List Char) :
    List (List Char) :=
  if seg = [] ∨ seg = ['.'] then stack
  else if seg = ['.', '.'] then
    match stack with
    | top :: rest =>
      if top = ['.', '.'] then
        if allowAboveRoot then seg :: stack else stack
      else rest
    | [] => if allowAboveRoot then [seg] else []
  else seg :: stack

/-- Node `path.posix.normalize` on character lists. -/
def posixNormalizeL (l : List Char) : List Char :=
  if l = [] then ['.']
  else
    let isAbs : Bool := decide (l.head? = some '/')
    let trailing : Bool := decide (l.getLast? = some '/')
    let segs := ((splitSlash l).foldl (normStep !isAbs) []).reverse
    let body := List.intercalate ['/'] segs
    if body = [] then
      if isAbs then ['/'] else if trailing then ['.', '/'] else ['.']
    else
      (if isAbs then ['/'] else []) ++ body ++ (if trailing then ['/'] else [])

/-- Node `path.posix.normalize`. -/
def posixNormalize (s : String) : String := String.mk (posixNormalizeL s.toList)

/-- Node `path.posix.join` at the two arguments the source uses: empty
arguments are dropped, the rest are joined with `'/'` and normalized;
with no nonempty argument left the result is `"."`. -/
def pathJoin (a b : String) : String :=
  if a = "" then
    if b = "" then "." else posixNormalize b
  else if b = "" then posixNormalize a
  else posixNormalize (a ++ "/" ++ b)

/-- Node `path.posix.basename` (one-argument form): the part of the
path after the last separator, trailing separators ignored. -/
def posixBasename (p : String) : String :=
  String.mk (((p.toList.reverse.dropWhile (· = '/')).takeWhile (· ≠ '/')).reverse)

/-- Node `path.posix.dirname`. -/
def posixDirname (p : String) : String :=
  if p = "" then "."
  else
    let r2 := (p.toList.reverse.dropWhile (· = '/')).dropWhile (· ≠ '/')
    let res := (r2.drop 1).reverse
    if res = [] then (if p.toList.head? = some '/' then "/" else ".")
    else if p.toList.head? = some '/' ∧ res = ['/'] then "//"
    else String.mk res

/-- Iterated `posixDirname` chain starting at `p` (leaf first), stopped
at the fixpoint; the fuel bounds the number of steps. -/
def dirChain : Nat → String → List String
  | 0, _ => []
  | fuel + 1, p =>
    let parent := posixDirname p
    if parent = p then [p] else p :: dirChain fuel parent

/-- `p` together with all its ancestors, leaf first: the directories
`mkdir -p p` (fs-extra `ensureDirSync`) guarantees to exist. -/
def ancestorDirs (p : String) : List String := dirChain (p.toList.length + 2) p

/-! ### Model of the filesystem and the `fs` / `fs-extra` primitives -/

/-- A filesystem entry: a regular file with its text content, or a directory. -/
inductive Entry
  | file (content : String)
  | dir
deriving DecidableEq, Repr

/-- The filesystem: an association list from path to entry, first match wins. -/
abbrev FS := List (String × Entry)

/-- The entry recorded at `p`, if any. -/
def fsLookup : FS → String → Option Entry
  | [], _ => none
  | (q, e) :: rest, p => if q = p then some e else fsLookup rest p

/-- Record `e` as the entry at `p`. -/
def fsSet (fs : FS) (p : String) (e : Entry) : FS := (p, e) :: fs

/-- Node `fs.existsSync`. -/
def existsSync (fs : FS) (p : String) : Bool := (fsLookup fs p).isSome

/-- Node `fs.readFileSync`: the content of the file at `p`; an error on
a directory or a missing path. -/
def readFileSync (fs : FS) (p : String) : Except String String :=
  match fsLookup fs p with
  | some (Entry.file c) => Except.ok c
  | some Entry.dir => Except.error "EISDIR"
  | none => Except.error "ENOENT"

/-- Node `fs.writeFileSync`: replace the content at `p`, creating the
file when absent; an error on a directory. -/
def writeFileSync (fs : FS) (p content : String) : Except String FS :=
  match fsLookup fs p with
  | some Entry.dir => Except.error "EISDIR"
  | _ => Except.ok (fsSet fs p (Entry.file content))

/-- Node `fs.appendFileSync`: append to the file at `p`, creating it
when absent; an error on a directory. -/
def appendFileSync (fs : FS) (p content : String) : Except String FS :=
  match fsLookup fs p with
  | some Entry.dir => Except.error "EISDIR"
  | some (Entry.file old) => Except.ok (fsSet fs p (Entry.file (old ++ content)))
  | none => Except.ok (fsSet fs p (Entry.file content))

/-- One `mkdir` step of fs-extra `ensureDirSync`: keep an existing
directory, create a missing one, fail on a regular file. -/
def mkdirOne (fs : FS) (p : String) : Except String FS :=
  match fsLookup fs p with
  | some Entry.dir => Except.ok fs
  | some (Entry.file _) => Except.error "ENOTDIR"
  | none => Except.ok (fsSet fs p Entry.dir)

/-- fs-extra `ensureDirSync` (`mkdir -p`): create `p` and every missing
ancestor, root first. -/
def ensureDirSync (fs : FS) (p : String) : Except String FS :=
  (ancestorDirs p).reverse.foldlM mkdirOne fs

/-- `fs.lstatSync(p).isFile()`; an error when `p` is missing. -/
def lstatIsFile (fs : FS) (p : String) : Except String Bool :=
  match fsLookup fs p with
  | some (Entry.file _) => Except.ok true
  | some Entry.dir => Except.ok false
  | none => Except.error "ENOENT"

/-- `fs.lstatSync(p).isDirectory()`; an error when `p` is missing. -/
def lstatIsDirectory (fs : FS) (p : String) : Except String Bool :=
  match fsLookup fs p with
  | some (Entry.file _) => Except.ok false
  | some Entry.dir => Except.ok true
  | none => Except.error "ENOENT"

/-- `Array.prototype.filter` with a fallible predicate, left to right. -/
def filterE (pred : String → Except String Bool) : List String → Except String (List String)
  | [] => Except.ok []
  | x :: rest => do
    let keep ← pred x
    let tail ← filterE pred rest
    pure (if keep then x :: tail else tail)

/-- A call to one of the black-box fs-extra engines (`removeSync`,
`moveSync`, `copySync`); the batch operations return the ordered list
of engine calls they issue. -/
inductive FSOp
  | remove (p : String)
  | move (src dst : String)
  | copy (src dst : String)
deriving DecidableEq, Repr

/-! ### `targetDirectoryWithTrailingSlash` -/

/-- JS `String.prototype.lastIndexOf` specialised to `'/'`: the largest
index holding `'/'`, or `-1`. -/
def lastIndexOfSlash (s : String) : Int :=
  match s.toList.reverse.findIdx? (· = '/') with
  | some i => (s.toList.length : Int) - 1 - (i : Int)
  | none => -1

/-- `targetDirectoryWithTrailingSlash` from the source: when
`pDestination.lastIndexOf('/') === pDestination.length - 1` the base
name of the file is joined onto the destination, otherwise the
destination is returned unchanged. -/
def targetDirectoryWithTrailingSlash (pDestination pFilePath : String) : String :=
  if lastIndexOfSlash pDestination = (pDestination.toList.length : Int) - 1 then
    pathJoin pDestination (posixBasename pFilePath)
  else pDestination

/-! ### The `Files` class -/

/-- The `Files` instance state: the construction pattern (field `glob`
in the source) and the current working set of matched paths (field
`files`). -/
structure Files where
  glob : String
  files : List String
deriving DecidableEq, Repr

/-- `onlyExistingFiles()`: keep only working-set entries that are
regular files on disk. -/
def Files.onlyExistingFiles (f : Files) (fs : FS) : Except String Files := do
  let files ← filterE (lstatIsFile fs) f.files
  pure { f with files := files }

/-- `onlyExistingFolders()`: keep only working-set entries that are
directories on disk. -/
def Files.onlyExistingFolders (f : Files) (fs : FS) : Except String Files := do
  let files ← filterE (lstatIsDirectory fs) f.files
  pure { f with files := files }

/-- The `Files` constructor: resolve the glob through the black-box
resolver (`glob.sync`) unless a new target is requested, then apply the
requested filters. -/
def Files.construct (resolver : String → List String) (fs : FS)
    (pGlob : String) (pNew pOnlyFiles pOnlyFolders : Bool) : Except String Files := do
  let f : Files := { glob := pGlob, files := if pNew then [] else resolver pGlob }
  let f ← if pOnlyFiles then f.onlyExistingFiles fs else pure f
  if pOnlyFolders then f.onlyExistingFolders fs else pure f

/-- Static `Files.getFiles`. -/
def Files.getFiles (resolver : String → List String) (fs : FS) (pGlob : String) :
    Except String Files :=
  Files.construct resolver fs pGlob false true false

/-- Static `Files.getFolders`. -/
def Files.getFolders (resolver : String → List String) (fs : FS) (pGlob : String) :
    Except String Files :=
  Files.construct resolver fs pGlob false false true

/-- Static `Files.any`. -/
def Files.any (resolver : String → List String) (fs : FS) (pPath : String) :
    Except String Files :=
  Files.construct resolver fs pPath false false false

/-- Static `Files.new`. -/
def Files.new (resolver : String → List String) (fs : FS) (pPath : String) :
    Except String Files :=
  Files.construct resolver fs pPath true false false

/-- `exists()`: whether the working set is non-empty. -/
def Files.existsTargets (f : Files) : Bool := decide (0 < f.files.length)

/-- `all(handler)`: map the handler over the working set. -/
def Files.all {α : Type} (f : Files) (pHandler : String → α) : List α :=
  f.files.map pHandler

/-- `delete()`: issue `fse.removeSync` for every working-set entry in
order, return the pre-clear length, and clear the working set. -/
def Files.delete (f : Files) : Nat × Files × List FSOp :=
  let ops := f.files.map (fun file => FSOp.remove file)
  let totalFiles := f.files.length
  (totalFiles, { f with files := [] }, ops)

/-- `remove()`: alias of `delete()`. -/
def Files.remove (f : Files) : Nat × Files × List FSOp :=
  f.delete

/-- `moveTo(destination)`: for every working-set entry in order, compute
the destination by the trailing-slash rule, issue `fse.moveSync`, and
push the destination onto the new working set; return the pre-operation
length and replace the working set. -/
def Files.moveTo (f : Files) (pDestination : String) : Nat × Files × List FSOp :=
  let acc := f.files.foldl
    (fun (acc : List String × List FSOp) file =>
      let destination := targetDirectoryWithTrailingSlash pDestination file
      (acc.1 ++ [destination], acc.2 ++ [FSOp.move file destination]))
    ([], [])
  let totalFiles := f.files.length
  (totalFiles, { f with files := acc.1 }, acc.2)

/-- `copyTo(destination)`: for every working-set entry in order, compute
the destination by the trailing-slash rule and issue `fse.copySync`;
the working set is not altered. -/
def Files.copyTo (f : Files) (pDestination : String) : Nat × Files × List FSOp :=
  let ops := f.files.map
    (fun file => FSOp.copy file (targetDirectoryWithTrailingSlash pDestination file))
  (f.files.length, f, ops)

/-- `read()`: the decoded content of the file at the pattern, or the
absent sentinel (`null`, modelled as `none`) when no entry exists there. -/
def Files.read (f : Files) (fs : FS) : Except String (Option String) :=
  if existsSync fs f.glob then (readFileSync fs f.glob).map some
  else Except.ok none

/-- `write(content)`: ensure the parent directories of the pattern,
then write `content` at the pattern, replacing any previous content. -/
def Files.write (f : Files) (pContent : String) (fs : FS) : Except String FS := do
  let fs1 ← ensureDirSync fs (posixDirname f.glob)
  writeFileSync fs1 f.glob pContent

/-- `append(content, newLine)`: ensure the parent directories of the
pattern, then append `content` at the pattern, preceded by a newline
when the target already exists and `pNewLine` is set. -/
def Files.append (f : Files) (pContent : String) (pNewLine : Bool) (fs : FS) :
    Except String FS := do
  let fs1 ← ensureDirSync fs (posixDirname f.glob)
  let before := if !existsSync fs1 f.glob || !pNewLine then "" else "\n"
  appendFileSync fs1 f.glob (before ++ pContent)

/-- `createFolders()`: with an empty working set, ensure the pattern
itself as a directory; otherwise ensure each working-set entry as a
directory, in order. -/
def Files.createFolders (f : Files) (fs : FS) : Except String FS :=
  if f.files.length = 0 then ensureDirSync fs f.glob
  else f.files.foldlM (fun acc file => ensureDirSync acc file) fs

/-- `ensureFolders()`: alias of `createFolders()`. -/
def Files.ensureFolders (f : Files) (fs : FS) : Except String FS :=
  f.createFolders fs

/-- `alter(handler)`: read the pattern file, pass the content (or the
absent sentinel) through the handler, write the result back. -/
def Files.alter (f : Files) (pHandler : Option String → String) (fs : FS) :
    Except String FS := do
  let content ← f.read fs
  f.write (pHandler content) fs

/-- `alterJSON(handler, spaces)`: read the pattern file, parse, pass
through the handler, serialise, write back.  `JSON.parse` and
`JSON.stringify` are platform black boxes, taken as parameters; calling
`.toString()` on the `null` returned by `read` on a missing file is a
`TypeError`. -/
def Files.alterJSON {J : Type} (f : Files) (pHandler : J → J)
    (parse : String → Except String J) (stringify : J → Option Nat → String)
    (pSpaces : Option Nat) (fs : FS) : Except String FS := do
  let content ← f.read fs
  match content with
  | none => Except.error "TypeError"
  | some s => do
    let j ← parse s
    f.write (stringify (pHandler j) pSpaces) fs

/-! ### The destination rule as the specification words it -/

/-- The destination-resolution rule as the specification states it (for
comparison with `targetDirectoryWithTrailingSlash`): a destination
ending with the path separator gets the base name of the source joined
onto it; any other destination is returned verbatim. -/
def resolveDestinationSpec (destinationPattern sourcePath : String) : String :=
  if destinationPattern.toList.getLast? = some '/' then
    pathJoin destinationPattern (posixBasename sourcePath)
  else destinationPattern

/-! ### Helper lemmas -/

theorem toList_ne_nil_of_ne_empty {s : String} (h : s ≠ "") : s.toList ≠ [] :=
  fun hl => h (congrArg String.mk hl)

theorem ne_empty_of_toList_ne_nil {s : String} (h : s.toList ≠ []) : s ≠ "" :=
  fun hs => h (congrArg String.toList hs)

theorem splitSlash_of_no_slash : ∀ (l : List Char), '/' ∉ l → splitSlash l = [l]
  | [], _ => rfl
  | c :: rest, h => by
    have hc : ¬c = '/' := fun hc => h (by simp [hc])
    have ih := splitSlash_of_no_slash rest (fun hm => h (List.mem_cons_of_mem c hm))
    simp [splitSlash, hc, ih]

theorem posixNormalizeL_of_no_slash (l : List Char) (hne : l ≠ []) (hns : '/' ∉ l) :
    posixNormalizeL l = l := by
  by_cases hdot : l = ['.']
  · subst hdot; decide
  by_cases hddot : l = ['.', '.']
  · subst hddot; decide
  have hhead : ¬l.head? = some '/' := by
    intro hc
    exact hns (List.mem_of_mem_head? (by rw [hc]; rfl))
  have hlast : ¬l.getLast? = some '/' := by
    intro hc
    exact hns (List.mem_of_mem_getLast? (by rw [hc]; rfl))
  have hsplit : splitSlash l = [l] := splitSlash_of_no_slash l hns
  simp only [posixNormalizeL, if_neg hne, hsplit, decide_eq_false hhead, decide_eq_false hlast,
    Bool.not_false, List.foldl_cons, List.foldl_nil]
  have hstep : normStep true [] l = [l] := by
    unfold normStep
    rw [if_neg (fun hor => hor.elim hne hdot), if_neg hddot]
  rw [hstep]
  simp [List.intercalate, List.intersperse, hne]

theorem posixNormalize_of_no_slash (s : String) (hne : s ≠ "")
    (hns : '/' ∉ s.toList) : posixNormalize s = s := by
  unfold posixNormalize
  rw [posixNormalizeL_of_no_slash s.toList (toList_ne_nil_of_ne_empty hne) hns]
  rfl

theorem posixBasename_no_slash (p : String) : '/' ∉ (posixBasename p).toList := by
  intro hm
  have hm2 : '/' ∈ (p.toList.reverse.dropWhile (· = '/')).takeWhile (· ≠ '/') :=
    List.mem_reverse.mp hm
  have := List.mem_takeWhile_imp hm2
  simp at this

theorem lastIndexOfSlash_eq_iff (s : String) (h : s.toList ≠ []) :
    lastIndexOfSlash s = (s.toList.length : Int) - 1 ↔ s.toList.getLast? = some '/' := by
  unfold lastIndexOfSlash
  have hlast : s.toList.getLast? = s.toList.reverse.head? := (List.head?_reverse _).symm
  rcases hr : s.toList.reverse with _ | ⟨c, t⟩
  · exact absurd (List.reverse_eq_nil_iff.mp hr) h
  have hlen : s.toList.length = t.length + 1 := by
    rw [← List.length_reverse s.toList, hr]; rfl
  rw [hlast, hr]
  by_cases hc : c = '/'
  · subst hc
    simp [List.findIdx?_cons]
  · rw [List.findIdx?_cons, if_neg (by simp [hc]), List.findIdx?_succ]
    constructor
    · intro hidx
      exfalso
      cases hft : t.findIdx? (fun x => decide (x = '/')) with
      | none =>
        rw [hft] at hidx
        simp only [Option.map_none'] at hidx
        rw [hlen] at hidx
        omega
      | some j =>
        rw [hft] at hidx
        simp only [Option.map_some'] at hidx
        omega
    · intro hcs
      simp only [List.head?_cons, Option.some.injEq] at hcs
      exact absurd hcs hc

theorem lookup_dir_preserved {fsA fsB : FS} {q : String}
    (hd : ∀ r, fsLookup fsB r = fsLookup fsA r ∨
      (fsLookup fsA r = none ∧ fsLookup fsB r = some Entry.dir))
    (h : fsLookup fsA q = some Entry.dir) : fsLookup fsB q = some Entry.dir := by
  rcases hd q with h1 | ⟨h1, h2⟩
  · rw [h1, h]
  · rw [h] at h1; exact absurd h1 (by simp)

theorem bind_eq_ok {α β : Type} {x : Except String α} {g : α → Except String β} {b : β}
    (h : x >>= g = Except.ok b) : ∃ a, x = Except.ok a ∧ g a = Except.ok b := by
  cases x with
  | error e =>
    exfalso
    have h2 : (Except.error e : Except String β) = Except.ok b := h
    exact Except.noConfusion h2
  | ok a => exact ⟨a, rfl, h⟩

theorem fsLookup_fsSet (fs : FS) (p : String) (e : Entry) (q : String) :
    fsLookup (fsSet fs p e) q = if p = q then some e else fsLookup fs q := rfl

theorem mkdirOne_ok {fs fs1 : FS} {p : String} (h : mkdirOne fs p = Except.ok fs1) :
    fsLookup fs1 p = some Entry.dir
    ∧ (∀ q, q ≠ p → fsLookup fs1 q = fsLookup fs q)
    ∧ (fsLookup fs p = some Entry.dir ∨ fsLookup fs p = none) := by
  unfold mkdirOne at h
  cases hL : fsLookup fs p with
  | none =>
    rw [hL] at h
    cases h
    refine ⟨by simp [fsLookup_fsSet], fun q hq => ?_, Or.inr rfl⟩
    rw [fsLookup_fsSet, if_neg (fun hpq => hq hpq.symm)]
  | some e =>
    cases e with
    | file c => rw [hL] at h; exact Except.noConfusion h
    | dir =>
      rw [hL] at h
      cases h
      exact ⟨hL, fun q _ => rfl, Or.inl rfl⟩

theorem mkdirFold_ok : ∀ (l : List String) (fs fs' : FS),
    List.foldlM mkdirOne fs l = Except.ok fs' →
    (∀ q, fsLookup fs' q = fsLookup fs q ∨
      (fsLookup fs q = none ∧ fsLookup fs' q = some Entry.dir))
    ∧ (∀ q, q ∈ l → fsLookup fs' q = some Entry.dir)
    ∧ (∀ q, q ∉ l → fsLookup fs' q = fsLookup fs q)
  | [], fs, fs', h => by
    have hfs : (Except.ok fs : Except String FS) = Except.ok fs' := h
    cases hfs
    exact ⟨fun q => Or.inl rfl, fun q hq => absurd hq (List.not_mem_nil q), fun q _ => rfl⟩
  | p :: l, fs, fs', h => by
    rw [List.foldlM_cons] at h
    obtain ⟨fs1, h1, h2⟩ := bind_eq_ok h
    obtain ⟨s1, s2, s3⟩ := mkdirOne_ok h1
    obtain ⟨d1, d2, d3⟩ := mkdirFold_ok l fs1 fs' h2
    refine ⟨fun q => ?_, fun q hq => ?_, fun q hq => ?_⟩
    · by_cases hqp : q = p
      · subst hqp
        have hq' : fsLookup fs' q = some Entry.dir := lookup_dir_preserved d1 s1
        rcases s3 with h3 | h3
        · exact Or.inl (hq'.trans h3.symm)
        · exact Or.inr ⟨h3, hq'⟩
      · rcases d1 q with h4 | ⟨h4, h5⟩
        · exact Or.inl (h4.trans (s2 q hqp))
        · rw [s2 q hqp] at h4
          exact Or.inr ⟨h4, h5⟩
    · rcases List.mem_cons.mp hq with hq | hq
      · subst hq
        exact lookup_dir_preserved d1 s1
      · exact d2 q hq
    · have hqp : q ≠ p := fun he => hq (he ▸ List.mem_cons_self p l)
      have hql : q ∉ l := fun he => hq (List.mem_cons_of_mem p he)
      rw [d3 q hql, s2 q hqp]

theorem ensureDirSync_ok {fs fs1 : FS} {p : String} (h : ensureDirSync fs p = Except.ok fs1) :
    (∀ q, fsLookup fs1 q = fsLookup fs q ∨
      (fsLookup fs q = none ∧ fsLookup fs1 q = some Entry.dir))
    ∧ (∀ q, q ∈ ancestorDirs p → fsLookup fs1 q = some Entry.dir)
    ∧ (∀ q, q ∉ ancestorDirs p → fsLookup fs1 q = fsLookup fs q) := by
  unfold ensureDirSync at h
  obtain ⟨d1, d2, d3⟩ := mkdirFold_ok ((ancestorDirs p).reverse) fs fs1 h
  exact ⟨d1, fun q hq => d2 q (List.mem_reverse.mpr hq),
    fun q hq => d3 q (fun hm => hq (List.mem_reverse.mp hm))⟩

theorem ensureFold_ok : ∀ (l : List String) (fs fs' : FS),
    List.foldlM (fun acc file => ensureDirSync acc file) fs l = Except.ok fs' →
    (∀ q, fsLookup fs' q = fsLookup fs q ∨
      (fsLookup fs q = none ∧ fsLookup fs' q = some Entry.dir))
    ∧ (∀ p, p ∈ l → ∀ q, q ∈ ancestorDirs p → fsLookup fs' q = some Entry.dir)
    ∧ (∀ q, (∀ p, p ∈ l → q ∉ ancestorDirs p) → fsLookup fs' q = fsLookup fs q)
  | [], fs, fs', h => by
    have hfs : (Except.ok fs : Except String FS) = Except.ok fs' := h
    cases hfs
    exact ⟨fun q => Or.inl rfl, fun p hp => absurd hp (List.not_mem_nil p), fun q _ => rfl⟩
  | p :: l, fs, fs', h => by
    rw [List.foldlM_cons] at h
    obtain ⟨fs1, h1, h2⟩ := bind_eq_ok h
    obtain ⟨e1, e2, e3⟩ := ensureDirSync_ok h1
    obtain ⟨d1, d2, d3⟩ := ensureFold_ok l fs1 fs' h2
    refine ⟨fun q => ?_, fun r hr q hq => ?_, fun q hq => ?_⟩
    · rcases d1 q with h4 | ⟨h4, h5⟩
      · rcases e1 q with h6 | ⟨h6, h7⟩
        · exact Or.inl (h4.trans h6)
        · exact Or.inr ⟨h6, h4.trans h7⟩
      · rcases e1 q with h6 | ⟨h6, h7⟩
        · rw [h6] at h4
          exact Or.inr ⟨h4, h5⟩
        · rw [h7] at h4
          exact absurd h4 (by simp)
    · rcases List.mem_cons.mp hr with hr | hr
      · subst hr
        exact lookup_dir_preserved d1 (e2 q hq)
      · exact d2 r hr q hq
    · have hnp : q ∉ ancestorDirs p := hq p (List.mem_cons_self p l)
      have hnl : ∀ r, r ∈ l → q ∉ ancestorDirs r :=
        fun r hr => hq r (List.mem_cons_of_mem p hr)
      rw [d3 q hnl, e3 q hnp]

theorem moveTo_foldl (d : String) : ∀ (l : List String) (acc1 : List String) (acc2 : List FSOp),
    l.foldl
      (fun (acc : List String × List FSOp) file =>
        let destination := targetDirectoryWithTrailingSlash d file
        (acc.1 ++ [destination], acc.2 ++ [FSOp.move file destination]))
      (acc1, acc2)
    = (acc1 ++ l.map (fun file => targetDirectoryWithTrailingSlash d file),
       acc2 ++ l.map (fun file => FSOp.move file (targetDirectoryWithTrailingSlash d file)))
  | [], acc1, acc2 => by simp
  | x :: l, acc1, acc2 => by
    rw [List.foldl_cons, moveTo_foldl d l _ _]
    simp

/-! ### Claims -/

/-- Claim C1, counterexample: the empty destination does not end with a
path separator, so the claimed rule returns it verbatim, yet the code
takes the directory branch (`lastIndexOf('/')` and `length - 1` are
both `-1`) and returns the base name of the source. -/
theorem targetDirectory_empty_dest_cex :
    targetDirectoryWithTrailingSlash "" "a/b/file.txt" = "file.txt"
    ∧ resolveDestinationSpec "" "a/b/file.txt" = ""
    ∧ ¬("" : String).toList.getLast? = some '/'
    ∧ ("file.txt" : String) ≠ "" := by
  refine ⟨by decide, rfl, by decide, by decide⟩

/-- Claim C1 (amended): for every NONEMPTY destination string and every
source path, `targetDirectoryWithTrailingSlash` returns the destination
joined with the base name (last path segment) of the source path when
the destination ends with a path separator, and returns the destination
string verbatim otherwise; the empty destination instead takes the
directory branch. -/
theorem targetDirectory_eq_spec_of_ne_empty (dest src : String) (h : dest ≠ "") :
    targetDirectoryWithTrailingSlash dest src = resolveDestinationSpec dest src := by
  have hne : dest.toList ≠ [] := toList_ne_nil_of_ne_empty h
  unfold targetDirectoryWithTrailingSlash resolveDestinationSpec
  by_cases hlast : dest.toList.getLast? = some '/'
  · rw [if_pos ((lastIndexOfSlash_eq_iff dest hne).mpr hlast), if_pos hlast]
  · rw [if_neg (fun hc => hlast ((lastIndexOfSlash_eq_iff dest hne).mp hc)), if_neg hlast]

/-- Claim C1, witness: the two examples of the claim, through the
amended theorem at the nonempty destinations `"dst/"` and
`"dst/renamed.txt"`. -/
theorem targetDirectory_eq_spec_witness :
    (targetDirectoryWithTrailingSlash "dst/" "a/b/file.txt"
      = resolveDestinationSpec "dst/" "a/b/file.txt"
      ∧ resolveDestinationSpec "dst/" "a/b/file.txt" = "dst/file.txt")
    ∧ (targetDirectoryWithTrailingSlash "dst/renamed.txt" "a/b/file.txt"
      = resolveDestinationSpec "dst/renamed.txt" "a/b/file.txt"
      ∧ resolveDestinationSpec "dst/renamed.txt" "a/b/file.txt" = "dst/renamed.txt") :=
  ⟨⟨targetDirectory_eq_spec_of_ne_empty "dst/" "a/b/file.txt" (by decide), by decide⟩,
   ⟨targetDirectory_eq_spec_of_ne_empty "dst/renamed.txt" "a/b/file.txt" (by decide), by decide⟩⟩

/-- Claim C2: `moveTo` returns the pre-operation length of the working
set, keeps the pattern, and replaces the working set 1:1 in order by
the destinations computed through the trailing-separator rule (the
issued engine calls move each source to exactly that destination). -/
theorem moveTo_replaces_working_set (f : Files) (d : String) :
    (f.moveTo d).1 = f.files.length
    ∧ (f.moveTo d).2.1.files
      = f.files.map (fun file => targetDirectoryWithTrailingSlash d file)
    ∧ (f.moveTo d).2.1.glob = f.glob
    ∧ (f.moveTo d).2.2
      = f.files.map (fun file => FSOp.move file (targetDirectoryWithTrailingSlash d file)) := by
  simp only [Files.moveTo]
  rw [moveTo_foldl d f.files [] []]
  simp

/-- Claim C3: `delete` returns the pre-clear length of the working set;
afterwards the working set is empty, so `exists()` is false (and one
removal call was issued per former entry, in order). -/
theorem delete_clears_and_counts (f : Files) :
    f.delete.1 = f.files.length
    ∧ f.delete.2.1.files = []
    ∧ f.delete.2.1.glob = f.glob
    ∧ f.delete.2.1.existsTargets = false
    ∧ f.delete.2.2 = f.files.map (fun file => FSOp.remove file) := by
  simp [Files.delete, Files.existsTargets]

/-- Claim C4: `copyTo` iterates the working set in stored order copying
each entry to the destination computed through the trailing-separator
rule, leaves the instance (pattern and working set) unchanged, and
returns the working-set length. -/
theorem copyTo_iterates_and_preserves (f : Files) (d : String) :
    (f.copyTo d).1 = f.files.length
    ∧ (f.copyTo d).2.1 = f
    ∧ (f.copyTo d).2.2
      = f.files.map (fun file => FSOp.copy file (targetDirectoryWithTrailingSlash d file)) := by
  simp [Files.copyTo]

/-- Claim C5: the working set is mutated only by `delete` / `remove`
(cleared) and `moveTo` (replaced); `copyTo` returns the instance
unchanged, so calling it twice with the same destination yields the
same working-set value both times.  The remaining operations (`read`,
`write`, `append`, `alter`, `alterJSON`, `createFolders`,
`ensureFolders`, `exists`) never assign to the instance fields in the
source and are embedded as functions that take the instance immutably. -/
theorem working_set_mutation_contract (f : Files) (d : String) :
    (f.copyTo d).2.1 = f
    ∧ ((f.copyTo d).2.1.copyTo d).2.1.files = (f.copyTo d).2.1.files
    ∧ f.remove = f.delete
    ∧ f.delete.2.1 = Files.mk f.glob []
    ∧ (f.moveTo d).2.1
      = Files.mk f.glob (f.files.map (fun file => targetDirectoryWithTrailingSlash d file)) := by
  refine ⟨rfl, rfl, rfl, rfl, ?_⟩
  simp only [Files.moveTo]
  rw [moveTo_foldl d f.files [] []]
  simp

/-- Claim C7: `read` returns the absent sentinel exactly when no
filesystem entry exists at the pattern path, and returns the content of
the file stored there otherwise; it does not consult the working set
(it is a function of the pattern and the filesystem only) and a missing
target is not an error. -/
theorem read_absent_sentinel (f : Files) (fs : FS) :
    (f.read fs = Except.ok none ↔ fsLookup fs f.glob = none)
    ∧ ∀ c, fsLookup fs f.glob = some (Entry.file c) → f.read fs = Except.ok (some c) := by
  unfold Files.read existsSync readFileSync
  cases hL : fsLookup fs f.glob with
  | none => simp
  | some e => cases e <;> simp [Except.map]

/-- Claim C7, witness: reading an existing one-entry filesystem returns
its content, through the theorem at a concrete instance. -/
theorem read_absent_sentinel_witness :
    Files.read (Files.mk "a.txt" []) [("a.txt", Entry.file "hi")]
      = Except.ok (some "hi") :=
  (read_absent_sentinel (Files.mk "a.txt" []) [("a.txt", Entry.file "hi")]).2 "hi" (by decide)

/-- Claim C10, counterexample: with the empty destination and the
source `"/"`, whose base name is empty, the code returns
`path.join("", "") = "."`, not the base name of the source. -/
theorem emptyDest_slash_source_cex :
    targetDirectoryWithTrailingSlash "" "/" = "."
    ∧ posixBasename "/" = ""
    ∧ ("." : String) ≠ "" := by
  refine ⟨by decide, by decide, by decide⟩

/-- Claim C10 (amended): for every source path the empty destination
takes the trailing-separator (directory) branch and returns
`path.join` of the empty destination and the base name of the source,
which equals the bare base name whenever that base name is nonempty
(for sources with an empty base name, such as `"/"`, it is `"."`). -/
theorem emptyDest_targets_basename (src : String) :
    targetDirectoryWithTrailingSlash "" src = pathJoin "" (posixBasename src)
    ∧ (posixBasename src ≠ "" →
      targetDirectoryWithTrailingSlash "" src = posixBasename src) := by
  have hbranch : targetDirectoryWithTrailingSlash "" src
      = pathJoin "" (posixBasename src) := by
    unfold targetDirectoryWithTrailingSlash
    rw [if_pos (by decide)]
  refine ⟨hbranch, fun hba => ?_⟩
  rw [hbranch]
  unfold pathJoin
  rw [if_pos rfl, if_neg hba]
  exact posixNormalize_of_no_slash _ hba (posixBasename_no_slash src)

/-- Claim C10, witness: the inner implication of the theorem at the
concrete source `"a/b/file.txt"`, whose base name is nonempty. -/
theorem emptyDest_targets_basename_witness :
    targetDirectoryWithTrailingSlash "" "a/b/file.txt" = posixBasename "a/b/file.txt" :=
  (emptyDest_targets_basename "a/b/file.txt").2 (by decide)

/-- Claim C6: a successful `write(X)` leaves the file at the pattern
holding exactly `X` — any previous content is replaced — so a following
`read()` returns `X`; and the parent directory of the pattern, with all
its ancestors, exists as a directory afterwards. -/
theorem write_read_roundtrip (f : Files) (content : String) (fs fs' : FS)
    (h : f.write content fs = Except.ok fs') :
    f.read fs' = Except.ok (some content)
    ∧ fsLookup fs' f.glob = some (Entry.file content)
    ∧ ∀ q, q ∈ ancestorDirs (posixDirname f.glob) → fsLookup fs' q = some Entry.dir := by
  simp only [Files.write] at h
  obtain ⟨fs1, h1, h2⟩ := bind_eq_ok h
  obtain ⟨e1, e2, e3⟩ := ensureDirSync_ok h1
  unfold writeFileSync at h2
  have hmain : fs' = fsSet fs1 f.glob (Entry.file content)
      ∧ fsLookup fs1 f.glob ≠ some Entry.dir := by
    cases hL : fsLookup fs1 f.glob with
    | none =>
      rw [hL] at h2
      cases h2
      exact ⟨rfl, by simp⟩
    | some e =>
      cases e with
      | dir => rw [hL] at h2; exact Except.noConfusion h2
      | file c =>
        rw [hL] at h2
        cases h2
        exact ⟨rfl, by simp [hL]⟩
  obtain ⟨hfs', hnd⟩ := hmain
  subst hfs'
  refine ⟨?_, ?_, ?_⟩
  · simp [Files.read, existsSync, readFileSync, fsLookup_fsSet, Except.map]
  · simp [fsLookup_fsSet]
  · intro q hq
    have hq1 := e2 q hq
    by_cases hqg : q = f.glob
    · subst hqg
      exact absurd hq1 hnd
    · rw [fsLookup_fsSet, if_neg (fun he => hqg he.symm)]
      exact hq1

/-- Claim C8: a successful `append(content, newLine)` first ensures the
parent directories of the pattern; on a pre-existing file with content
`old` the file then holds `old` followed by a newline (only when the
flag is set) and `content`; on a missing file it holds `content`
verbatim, regardless of the flag. -/
theorem append_semantics (f : Files) (content : String) (pNewLine : Bool) (fs fs' : FS)
    (h : f.append content pNewLine fs = Except.ok fs') :
    (∀ old, fsLookup fs f.glob = some (Entry.file old) →
      fsLookup fs' f.glob
        = some (Entry.file (old ++ ((if pNewLine then "\n" else "") ++ content))))
    ∧ (fsLookup fs f.glob = none → fsLookup fs' f.glob = some (Entry.file content))
    ∧ (∀ q, q ∈ ancestorDirs (posixDirname f.glob) → fsLookup fs' q = some Entry.dir) := by
  simp only [Files.append] at h
  obtain ⟨fs1, h1, h2⟩ := bind_eq_ok h
  obtain ⟨e1, e2, e3⟩ := ensureDirSync_ok h1
  unfold appendFileSync at h2
  cases hL : fsLookup fs1 f.glob with
  | some e =>
    cases e with
    | dir => rw [hL] at h2; exact Except.noConfusion h2
    | file old1 =>
      have hex : existsSync fs1 f.glob = true := by simp [existsSync, hL]
      rw [hex, hL] at h2
      simp only [Bool.not_true, Bool.false_or] at h2
      cases h2
      refine ⟨fun old hold => ?_, fun hnone => ?_, fun q hq => ?_⟩
      · have hold1 : old1 = old := by
          rcases e1 f.glob with h4 | ⟨h4, h5⟩
          · rw [hL, hold] at h4
            simpa using h4
          · rw [hold] at h4
            exact absurd h4 (by simp)
        subst hold1
        rw [fsLookup_fsSet, if_pos rfl]
        cases pNewLine <;> simp
      · rcases e1 f.glob with h4 | ⟨h4, h5⟩
        · rw [hnone] at h4; rw [h4] at hL; exact Option.noConfusion hL
        · rw [h5] at hL
          exact absurd (Option.some.inj hL) (fun he => Entry.noConfusion he)
      · have hq1 := e2 q hq
        by_cases hqg : q = f.glob
        · subst hqg
          rw [hL] at hq1
          exact absurd (Option.some.inj hq1) (fun he => Entry.noConfusion he)
        · rw [fsLookup_fsSet, if_neg (fun he => hqg he.symm)]
          exact hq1
  | none =>
    have hex : existsSync fs1 f.glob = false := by simp [existsSync, hL]
    rw [hex, hL] at h2
    simp only [Bool.not_false, Bool.true_or] at h2
    cases h2
    refine ⟨fun old hold => ?_, fun hnone => ?_, fun q hq => ?_⟩
    · rcases e1 f.glob with h4 | ⟨h4, h5⟩
      · rw [hold] at h4; rw [h4] at hL; exact Option.noConfusion hL
      · rw [hold] at h4; exact absurd h4 (by simp)
    · rw [fsLookup_fsSet, if_pos rfl]
      have hemp : ("" : String) ++ content = content := by
        cases content with
        | mk l => rfl
      simp only [if_true]
      rw [hemp]
    · have hq1 := e2 q hq
      by_cases hqg : q = f.glob
      · subst hqg
        rw [hL] at hq1
        exact Option.noConfusion hq1
      · rw [fsLookup_fsSet, if_neg (fun he => hqg he.symm)]
        exact hq1

/-- Claim C9: a successful `createFolders()` (and its alias
`ensureFolders()`) ensures the pattern itself as a directory — it and
all its ancestors exist afterwards — exactly when the working set is
empty; with a non-empty working set it ensures each entry (and the
entry's ancestors) as a directory and leaves the pattern path untouched
whenever the pattern is not among the directories those entries
require. -/
theorem createFolders_duality (f : Files) (fs fs' : FS)
    (h : f.createFolders fs = Except.ok fs') :
    (f.files = [] → ∀ q, q ∈ ancestorDirs f.glob → fsLookup fs' q = some Entry.dir)
    ∧ (f.files ≠ [] →
      (∀ p, p ∈ f.files → ∀ q, q ∈ ancestorDirs p → fsLookup fs' q = some Entry.dir)
      ∧ ((∀ p, p ∈ f.files → f.glob ∉ ancestorDirs p) →
        fsLookup fs' f.glob = fsLookup fs f.glob))
    ∧ f.ensureFolders fs = f.createFolders fs := by
  refine ⟨fun hnil q hq => ?_, fun hne => ?_, rfl⟩
  · unfold Files.createFolders at h
    rw [if_pos (by simp [hnil])] at h
    exact (ensureDirSync_ok h).2.1 q hq
  · unfold Files.createFolders at h
    rw [if_neg (by simp [hne])] at h
    obtain ⟨d1, d2, d3⟩ := ensureFold_ok f.files fs fs' h
    exact ⟨d2, fun hout => d3 f.glob hout⟩

/-- Claim C6, witness: writing `"hello"` to a fresh `out/report.txt`
target on an empty filesystem and reading it back, through the theorem
at that concrete instance. -/
theorem write_read_roundtrip_witness :
    Files.read (Files.mk "out/report.txt" [])
      [("out/report.txt", Entry.file "hello"), ("out", Entry.dir), (".", Entry.dir)]
      = Except.ok (some "hello") :=
  (write_read_roundtrip (Files.mk "out/report.txt" []) "hello" []
    [("out/report.txt", Entry.file "hello"), ("out", Entry.dir), (".", Entry.dir)]
    (by rfl)).1

/-- Claim C8, witness: appending `"b"` with the newline flag to a
`d/log.txt` file holding `"a"` yields `"a\nb"`, through the theorem at
that concrete instance. -/
theorem append_semantics_witness :
    fsLookup
      [("d/log.txt", Entry.file "a\nb"), ("d/log.txt", Entry.file "a"),
        ("d", Entry.dir), (".", Entry.dir)] "d/log.txt"
      = some (Entry.file "a\nb") :=
  (append_semantics (Files.mk "d/log.txt" []) "b" true
    [("d/log.txt", Entry.file "a"), ("d", Entry.dir), (".", Entry.dir)]
    [("d/log.txt", Entry.file "a\nb"), ("d/log.txt", Entry.file "a"),
      ("d", Entry.dir), (".", Entry.dir)] (by rfl)).1 "a" (by rfl)

/-- Claim C9, witness: `createFolders` on an empty-working-set instance
with pattern `a/b` creates `a/b` as a directory, through the theorem at
that concrete instance. -/
theorem createFolders_duality_witness :
    fsLookup [("a/b", Entry.dir), ("a", Entry.dir), (".", Entry.dir)] "a/b"
      = some Entry.dir :=
  (createFolders_duality (Files.mk "a/b" []) []
    [("a/b", Entry.dir), ("a", Entry.dir), (".", Entry.dir)] (by rfl)).1 rfl "a/b" (by decide)

end FilesJS
